import Mathlib

/-!
Verification of the bempline template compiler (src/document.rs).

The development shallowly embeds the compilation pipeline of the crate:
the lexer (`first_pass` / `parse_token` / `parse_command`), the
structuring pass (`do_command_structuring` and the loop in
`parse_string`), the renderer (`tokens_to_string` / `compile`) and the
pattern/variable API (`set`, `clear_variables`, `get_pattern`,
`set_pattern`).

Modelling conventions:
* Rust `String` is Lean `String`; the scanner works on `List Char`,
  mirroring the `Peekable<Chars>` iterator of the source.
* `HashMap<String, V>` is an association list `List (String × V)` with
  `assocGet` / `assocInsert` mirroring `get` / `insert` (insertion
  replaces the binding of an existing key; lookup is order independent).
* The file system and include-path resolution (`resolve_include_path`
  followed by `read_to_string`, both I/O) are abstracted into one
  environment `fs : String → Option String` mapping the raw include
  argument to the content of the resolved file; `none` models every
  resolution or read failure and is reported as `ParseError.readError`.
* Unbounded recursion through `include` / `wrap-include` (the Rust code
  recurses through the file system and diverges on cyclic includes) is
  cut with a `fuel` parameter that is consumed only when an include is
  followed; exhaustion is the artificial error `ParseError.outOfFuel`.
* A `WrapInclude` token of the source holds a whole sub-`Document`, but
  the only field of it ever consulted afterwards (line 216 of
  document.rs) is its token list, so the embedded token stores the
  structured token list of the included sub-document.
-/

set_option maxHeartbeats 1600000
set_option maxRecDepth 4096

namespace Bempline

/-- Error levels of `options.rs` (`ErrorLevel`). -/
inductive ErrorLevel where
  | error
  | warning
  | noError
deriving DecidableEq, Repr, Inhabited

/-- Include resolution policy of `options.rs` (`IncludeMethod`); the
`PathBuf` payload is modelled as a string. -/
inductive IncludeMethod where
  | currentDirectory
  | template
  | path (p : String)
deriving DecidableEq, Repr, Inhabited

/-- Parsing options of `options.rs` (`Options`), field names kept
verbatim, including the `unset_varaible` spelling of the source. -/
structure Options where
  unknown_include : ErrorLevel
  unset_varaible : ErrorLevel
  include_method : IncludeMethod
deriving DecidableEq, Repr

/-- The `Default` impl for `Options` in options.rs. -/
def Options.defaultOptions : Options :=
  { unknown_include := ErrorLevel.error
    unset_varaible := ErrorLevel.noError
    include_method := IncludeMethod.template }

instance : Inhabited Options := ⟨Options.defaultOptions⟩

/-- Errors of document.rs (`ParseError`).  `readError` stands for both
`ReadError` and `CanonicalizationError`/`UnresolvableInclude` (the file
system is abstracted into a single lookup, see the module docstring);
`outOfFuel` is the artificial result of exhausting include fuel. -/
inductive ParseError where
  | readError (file : String)
  | unknownCommand (command : String)
  | commandArgumentInvalid (command : String) (argument : String)
  | unclosedCommand
  | outOfFuel
deriving DecidableEq, Repr

/-- The token tree of document.rs (`Token`).  `wrapInclude document
tokens` keeps only the token list of the attached sub-document (the
other fields of that document are dropped by the source as well, see
`parse_string`, line 216). -/
inductive Token where
  | text (s : String)
  | var (name : String)
  | ifSet (variable_name : String) (tokens : List Token)
      (else_tokens : Option (List Token))
  | pattern (pattern_name : String) (tokens : List Token)
  | wrapInclude (document : List Token) (tokens : List Token)
  | wrappedContent
  | else_
  | end_
deriving Inhabited

/-- `Token::is_command` of document.rs. -/
def Token.is_command : Token → Bool
  | Token.text _ => false
  | Token.var _ => false
  | Token.ifSet _ _ _ => true
  | Token.pattern _ _ => true
  | Token.wrapInclude _ _ => true
  | Token.wrappedContent => false
  | Token.else_ => false
  | Token.end_ => false

/-- Lookup in an association list, modelling `HashMap::get`. -/
def assocGet {β : Type} : List (String × β) → String → Option β
  | [], _ => none
  | (k, v) :: rest, key => if k = key then some v else assocGet rest key

/-- Insertion into an association list, modelling `HashMap::insert`
(replaces the binding of an existing key, otherwise appends). -/
def assocInsert {β : Type} : List (String × β) → String → β → List (String × β)
  | [], key, value => [(key, value)]
  | (k, v) :: rest, key, value =>
    if k = key then (key, value) :: rest else (k, v) :: assocInsert rest key value

/-- The `Document` struct of document.rs.  `template_path` keeps the
path as a string. -/
structure Document where
  options : Options
  template_path : Option String
  tokens : List Token
  variables' : List (String × String)
  patterns : List (String × List String)

/-- The `Pattern` struct of document.rs: the name together with the
extracted sub-document. -/
structure Pattern where
  name : String
  document : Document

/-- `Document::clear_variables`: clears the variable table and the
pattern-instance table. -/
def Document.clear_variables (d : Document) : Document :=
  { d with variables' := [], patterns := [] }

/-- `Document::set`: binds a variable (the `Display` value of the source
is modelled as an already formatted string). -/
def Document.set (d : Document) (key value : String) : Document :=
  { d with variables' := assocInsert d.variables' key value }

/-- `Document::get_pattern`: finds the first top-level `Pattern` token
with the given name and wraps its body in a fresh document that copies
the options, template path and variable table and starts with an empty
pattern-instance table. -/
def Document.get_pattern (d : Document) (key : String) : Option Pattern :=
  d.tokens.findSome? fun tok =>
    match tok with
    | Token.pattern pattern_name tokens =>
      if pattern_name = key then
        some { name := key
               document :=
                 { options := d.options
                   template_path := d.template_path
                   tokens := tokens
                   variables' := d.variables'
                   patterns := [] } }
      else none
    | _ => none

mutual

/-- Rendering of a single token: the body of the `match token` inside
`Document::tokens_to_string` of document.rs.  Unset variables are
reconstructed as `{name}`; pattern slots expand to the concatenation of
the registered instances; `WrapInclude`, `WrappedContent`, `Else` and
`End` render as nothing. -/
def Document.token_to_string (d : Document) : Token → String
  | Token.text s => s
  | Token.var name =>
    (match assocGet d.variables' name with
     | some value => value
     | none => "\x7b" ++ name ++ "\x7d")
  | Token.ifSet variable_name tokens else_tokens =>
    (match assocGet d.variables' variable_name, else_tokens with
     | some val, els =>
       if val ≠ "" then Document.tokens_to_string d tokens
       else
         match els with
         | some else_toks => Document.tokens_to_string d else_toks
         | none => ""
     | none, some else_toks => Document.tokens_to_string d else_toks
     | none, none => "")
  | Token.pattern pattern_name _ =>
    (match assocGet d.patterns pattern_name with
     | some pats => String.join pats
     | none => "")
  | Token.wrapInclude _ _ => ""
  | Token.wrappedContent => ""
  | Token.else_ => ""
  | Token.end_ => ""

/-- `Document::tokens_to_string` of document.rs: renders a token list by
appending the rendering of each token in order. -/
def Document.tokens_to_string (d : Document) : List Token → String
  | [] => ""
  | token :: rest =>
    Document.token_to_string d token ++ Document.tokens_to_string d rest

end

/-- `Document::compile`: renders the token tree of the document (the
source drains `self.tokens` first, but `tokens_to_string` never reads
`self.tokens`, so the drained and the plain reading agree). -/
def Document.compile (d : Document) : String :=
  Document.tokens_to_string d d.tokens

/-- `Document::set_pattern`: registers the compiled text of the carried
sub-document in the pattern-instance table under the pattern name. -/
def Document.set_pattern (d : Document) (p : Pattern) : Document :=
  match assocGet d.patterns p.name with
  | some pats =>
    { d with patterns := assocInsert d.patterns p.name (pats ++ [p.document.compile]) }
  | none =>
    { d with patterns := assocInsert d.patterns p.name [p.document.compile] }

/-- One iteration of the `match command` update inside
`Document::do_command_structuring`: pushes an accumulated token into the
open composite.  An `Else` token switches an `IfSet` to a fresh else
body (even when one is already open, exactly as in the source); the
final catch-all corresponds to the panicking arm of the source, which is
unreachable because the function is only ever called on command
tokens. -/
def push_into_command (command token : Token) : Token :=
  match command with
  | Token.ifSet variable_name tokens else_tokens =>
    (match token with
     | Token.else_ => Token.ifSet variable_name tokens (some [])
     | _ =>
       match else_tokens with
       | none => Token.ifSet variable_name (tokens ++ [token]) none
       | some els => Token.ifSet variable_name tokens (some (els ++ [token])))
  | Token.pattern pattern_name tokens => Token.pattern pattern_name (tokens ++ [token])
  | Token.wrapInclude document tokens => Token.wrapInclude document (tokens ++ [token])
  | other => other

/-- `Document::do_command_structuring` of document.rs: accumulates
tokens into the open composite `command` until the matching `End`,
recursively structuring nested composite openers first.  The iterator of
the source is modelled by returning the unconsumed remainder of the
token list; its length bound makes the recursion evidently
terminating. -/
def do_command_structuring (command : Token) :
    (toks : List Token) →
      Except ParseError (Token × { rest : List Token // rest.length ≤ toks.length })
  | [] => Except.error ParseError.unclosedCommand
  | Token.end_ :: rest => Except.ok (command, ⟨rest, Nat.le_succ _⟩)
  | tok :: rest =>
    if tok.is_command then
      match do_command_structuring tok rest with
      | Except.error e => Except.error e
      | Except.ok (structured, ⟨rest1, h1⟩) =>
        match do_command_structuring (push_into_command command structured) rest1 with
        | Except.error e => Except.error e
        | Except.ok (t, ⟨rest2, h2⟩) =>
          Except.ok (t, ⟨rest2, by simp only [List.length_cons]; omega⟩)
    else
      match do_command_structuring (push_into_command command tok) rest with
      | Except.error e => Except.error e
      | Except.ok (t, ⟨rest1, h1⟩) =>
        Except.ok (t, ⟨rest1, by simp only [List.length_cons]; omega⟩)
termination_by toks => toks.length
decreasing_by
  · simp only [List.length_cons]; omega
  · simp only [List.length_cons]; omega
  · simp only [List.length_cons]; omega

/-- The splice loop of `Document::parse_string` (lines 221-227): walks
the wrapped sub-document and replaces the first top-level
`WrappedContent` marker by the accumulated splice body (`Vec::drain`
empties the body, so any later marker is replaced by nothing). -/
def splice_wrapped : List Token → List Token → List Token
  | [], _ => []
  | Token.wrappedContent :: rest, splice => splice ++ splice_wrapped rest []
  | tok :: rest, splice => tok :: splice_wrapped rest splice

/-- The structuring loop of `Document::parse_string` (lines 209-235):
structures every top-level composite opener, splicing `WrapInclude`
results in place; non-command tokens (including stray `Else`, `End` and
`WrappedContent` markers) are passed through verbatim. -/
def structure_tokens : (toks : List Token) → Except ParseError (List Token)
  | [] => Except.ok []
  | Token.wrapInclude document tokens :: rest =>
    (match do_command_structuring (Token.wrapInclude document tokens) rest with
     | Except.error e => Except.error e
     | Except.ok (wrap, ⟨rest1, _⟩) =>
       let spliced :=
         match wrap with
         | Token.wrapInclude doc toks => splice_wrapped doc toks
         | _ => []
       match structure_tokens rest1 with
       | Except.error e => Except.error e
       | Except.ok doc_tokens => Except.ok (spliced ++ doc_tokens))
  | tok :: rest =>
    if tok.is_command then
      match do_command_structuring tok rest with
      | Except.error e => Except.error e
      | Except.ok (t, ⟨rest1, _⟩) =>
        match structure_tokens rest1 with
        | Except.error e => Except.error e
        | Except.ok doc_tokens => Except.ok (t :: doc_tokens)
    else
      match structure_tokens rest with
      | Except.error e => Except.error e
      | Except.ok doc_tokens => Except.ok (tok :: doc_tokens)
termination_by toks => toks.length
decreasing_by
  · simp only [List.length_cons]; omega
  · simp only [List.length_cons]; omega
  · simp only [List.length_cons]; omega

/-- The free function `take_while_chars` of document.rs: consumes the
longest prefix satisfying the predicate and leaves the iterator at the
first failing character (modelled by returning the remainder). -/
def take_while_chars (func : Char → Bool) (l : List Char) : List Char × List Char :=
  (l.takeWhile func, l.dropWhile func)

/-- Rust `str::split_once` on a single-character separator: splits at
the first occurrence, dropping the separator. -/
def split_once_char (c : Char) : List Char → Option (List Char × List Char)
  | [] => none
  | x :: rest =>
    if x = c then some ([], rest)
    else
      match split_once_char c rest with
      | none => none
      | some (a, b) => some (x :: a, b)

/-- The placeholder-content predicate of `first_pass`: a command (next
character `%`) consumes up to the closing brace, a variable name stops
at the closing brace or at the first whitespace character. -/
def lex_pred (ch2 : Char) : Char → Bool :=
  if ch2 = '%' then (fun c => c != '}')
  else (fun c => c != '}' && !c.isWhitespace)

/-- Rust `str::trim`: removes leading and trailing whitespace (the
Unicode/ASCII whitespace discrepancy between Rust and `Char.isWhitespace`
is irrelevant to the properties proved here). -/
def trim_chars (l : List Char) : List Char :=
  ((l.dropWhile Char.isWhitespace).reverse.dropWhile Char.isWhitespace).reverse

/-- `self.tokens.push(t)` on a document. -/
def Document.push_token (d : Document) (t : Token) : Document :=
  { d with tokens := d.tokens ++ [t] }

/-- The flush of the pending text buffer performed by `first_pass` (a
`Text` token is pushed only when the buffer is non-empty). -/
def flush_text (d : Document) (current : String) : Document :=
  if current = "" then d else d.push_token (Token.text current)

/-- The outcome a command dispatches to: the pure part of
`Document::parse_command` of document.rs, separated from the effectful
include handling so that each piece stays small. -/
inductive CommandAction where
  | push (t : Token)
  | setVar (name value : String)
  | doInclude (path : String)
  | doWrapInclude (path : String)
  | fail (e : ParseError)

/-- The branch structure of `Document::parse_command` of document.rs:
`else`, `end` and `wrapped-content` push their marker before the
argument check; every other command requires a non-empty argument
(an absent argument is reported as the empty string, exactly as
`arguments.unwrap_or_default()` does); `set` splits its argument at the
first space into name and value; `include` and `wrap-include` hand the
argument to the resolver; anything else is an unknown command. -/
def classify_command (command : String) (arguments : Option String) : CommandAction :=
  if command = "else" then CommandAction.push Token.else_
  else if command = "end" then CommandAction.push Token.end_
  else if command = "wrapped-content" then CommandAction.push Token.wrappedContent
  else
    let args := arguments.getD ""
    if args = "" then CommandAction.fail (ParseError.commandArgumentInvalid command args)
    else if command = "set" then
      match split_once_char ' ' args.data with
      | none => CommandAction.fail (ParseError.commandArgumentInvalid command args)
      | some (name, value) => CommandAction.setVar (String.mk name) (String.mk value)
    else if command = "include" then CommandAction.doInclude args
    else if command = "if-set" then CommandAction.push (Token.ifSet args [] none)
    else if command = "pattern" then CommandAction.push (Token.pattern args [])
    else if command = "wrap-include" then CommandAction.doWrapInclude args
    else CommandAction.fail (ParseError.unknownCommand command)

mutual

/-- `Document::first_pass` of document.rs: the character scanner.
`current` is the pending literal-text buffer.  A backslash escapes only
a following opening brace (a lone final backslash is dropped); `{`
starts a placeholder whose kind is decided by the next character (`%`
for commands, anything else for variables); an invalid placeholder is
recovered into the text buffer verbatim without consuming the failing
character.  `fuel` bounds include nesting only. -/
def first_pass (fuel : Nat) (fs : String → Option String) (d : Document)
    (cs : List Char) (current : String) : Except ParseError Document :=
  match cs with
  | [] => Except.ok (flush_text d current)
  | ch :: cs1 =>
    if ch = '\\' then
      match cs1 with
      | '{' :: cs2 => first_pass fuel fs d cs2 (current.push '{')
      | ch2 :: cs2 => first_pass fuel fs d cs2 ((current.push '\\').push ch2)
      | [] => first_pass fuel fs d [] current
    else if ch = '{' then
      match cs1 with
      | [] => first_pass fuel fs d [] (current.push '{')
      | ch2 :: cs2 =>
        let inside := take_while_chars (lex_pred ch2) (ch2 :: cs2)
        if inside.2.head? = some '}' then
          match parse_token fuel fs (flush_text d current) (String.mk inside.1) with
          | Except.error e => Except.error e
          | Except.ok d1 => first_pass fuel fs d1 inside.2.tail ""
        else first_pass fuel fs d inside.2 ((current.push '{') ++ String.mk inside.1)
    else first_pass fuel fs d cs1 (current.push ch)
termination_by (fuel, cs.length, 3)
decreasing_by
  all_goals
    first
    | decreasing_tactic
    | (simp_wf
       apply Prod.Lex.right
       apply Prod.Lex.left
       have hdw : ∀ (p : Char → Bool) (l : List Char),
           (List.dropWhile p l).length ≤ l.length := by
         intro p l
         induction l with
         | nil => simp
         | cons a t ih =>
           simp only [List.dropWhile]
           cases p a
           · simp
           · simpa using Nat.le_succ_of_le ih
       have hle := hdw (lex_pred x) (x :: rest)
       simp only [take_while_chars, List.length_tail, List.length_cons] at hle ⊢
       omega)

/-- `Document::parse_token` of document.rs: dispatches the unbraced
placeholder content; empty content becomes the literal text `{}`, a
leading `%` a command, anything else a variable token. -/
def parse_token (fuel : Nat) (fs : String → Option String) (d : Document)
    (s : String) : Except ParseError Document :=
  match s.data with
  | [] => Except.ok (d.push_token (Token.text "\x7b\x7d"))
  | '%' :: rest =>
    let stripped_and_trimmed := trim_chars rest
    (match split_once_char ' ' stripped_and_trimmed with
     | some (command, arguments) =>
       parse_command fuel fs d (String.mk command) (some (String.mk arguments))
     | none => parse_command fuel fs d (String.mk stripped_and_trimmed) none)
  | _ :: _ => Except.ok (d.push_token (Token.var s))
termination_by (fuel, 0, 2)

/-- `Document::parse_command` of document.rs.  `set` mutates the
variable table at lex time; `include` re-lexes the referenced content in
place; `wrap-include` fully parses the referenced content as a fresh
sub-document via `from_str` and attaches its token list. -/
def parse_command (fuel : Nat) (fs : String → Option String) (d : Document)
    (command : String) (arguments : Option String) : Except ParseError Document :=
  match classify_command command arguments with
  | CommandAction.push t => Except.ok (d.push_token t)
  | CommandAction.setVar name value =>
    Except.ok { d with variables' := assocInsert d.variables' name value }
  | CommandAction.doInclude path =>
    (match fs path, fuel with
     | none, _ => Except.error (ParseError.readError path)
     | some _, 0 => Except.error ParseError.outOfFuel
     | some content, fuel1 + 1 => first_pass fuel1 fs d content.data "")
  | CommandAction.doWrapInclude path =>
    (match fs path, fuel with
     | none, _ => Except.error (ParseError.readError path)
     | some _, 0 => Except.error ParseError.outOfFuel
     | some content, fuel1 + 1 =>
       match from_str fuel1 fs content d.options with
       | Except.error e => Except.error e
       | Except.ok doc => Except.ok (d.push_token (Token.wrapInclude doc.tokens [])))
  | CommandAction.fail e => Except.error e
termination_by (fuel, 0, 1)

/-- `Document::parse_string` of document.rs: lexes the raw text into the
document and then runs the structuring loop over the flat token list. -/
def parse_string (fuel : Nat) (fs : String → Option String) (d : Document)
    (raw : String) : Except ParseError Document :=
  match first_pass fuel fs d raw.data "" with
  | Except.error e => Except.error e
  | Except.ok st =>
    match structure_tokens st.tokens with
    | Except.error e => Except.error e
    | Except.ok doc_tokens => Except.ok { st with tokens := doc_tokens }
termination_by (fuel, raw.data.length, 4)

/-- `Document::from_str` of document.rs: parses a buffer with no
template path and empty tables. -/
def from_str (fuel : Nat) (fs : String → Option String) (s : String)
    (options : Options) : Except ParseError Document :=
  parse_string fuel fs
    { options := options
      template_path := none
      tokens := []
      variables' := []
      patterns := [] } s
termination_by (fuel, s.data.length, 5)

end

/-- `do_command_structuring` with the termination bookkeeping stripped:
the structured composite together with the plain unconsumed remainder. -/
def dcs_plain (command : Token) (toks : List Token) :
    Except ParseError (Token × List Token) :=
  match do_command_structuring command toks with
  | Except.error e => Except.error e
  | Except.ok (t, s) => Except.ok (t, s.val)

/-!
Executable twins of the pipeline.

The pipeline functions above are defined by well-founded recursion and
therefore do not reduce inside the kernel.  To evaluate them on concrete
inputs, the following `…_run` functions recompute the very same
algorithms by structural recursion on an explicit `gas` counter
(returning `none` when the gas runs out), and agreement theorems below
(`dcs_run_agrees`, `st_run_agrees`, `run_agrees`) transport any `rfl`
computed result of a twin to the corresponding specification function.
-/

/-- Structural-recursion twin of `do_command_structuring`. -/
def dcs_run : Nat → Token → List Token → Option (Except ParseError (Token × List Token))
  | 0, _, _ => none
  | gas + 1, command, toks =>
    match toks with
    | [] => some (Except.error ParseError.unclosedCommand)
    | Token.end_ :: rest => some (Except.ok (command, rest))
    | tok :: rest =>
      if tok.is_command then
        match dcs_run gas tok rest with
        | none => none
        | some (Except.error e) => some (Except.error e)
        | some (Except.ok (structured, rest1)) =>
          dcs_run gas (push_into_command command structured) rest1
      else dcs_run gas (push_into_command command tok) rest

/-- Structural-recursion twin of `structure_tokens`. -/
def st_run : Nat → List Token → Option (Except ParseError (List Token))
  | 0, _ => none
  | gas + 1, toks =>
    match toks with
    | [] => some (Except.ok [])
    | Token.wrapInclude document tokens :: rest =>
      (match dcs_run (gas + 1) (Token.wrapInclude document tokens) rest with
       | none => none
       | some (Except.error e) => some (Except.error e)
       | some (Except.ok (wrap, rest1)) =>
         let spliced :=
           match wrap with
           | Token.wrapInclude doc toks => splice_wrapped doc toks
           | _ => []
         match st_run gas rest1 with
         | none => none
         | some (Except.error e) => some (Except.error e)
         | some (Except.ok doc_tokens) => some (Except.ok (spliced ++ doc_tokens)))
    | tok :: rest =>
      if tok.is_command then
        match dcs_run (gas + 1) tok rest with
        | none => none
        | some (Except.error e) => some (Except.error e)
        | some (Except.ok (t, rest1)) =>
          match st_run gas rest1 with
          | none => none
          | some (Except.error e) => some (Except.error e)
          | some (Except.ok doc_tokens) => some (Except.ok (t :: doc_tokens))
      else
        match st_run gas rest with
        | none => none
        | some (Except.error e) => some (Except.error e)
        | some (Except.ok doc_tokens) => some (Except.ok (tok :: doc_tokens))

/-- Defunctionalized call descriptor for the mutual lexer family. -/
inductive Call where
  | fp (fuel : Nat) (fs : String → Option String) (d : Document)
      (cs : List Char) (current : String)
  | pt (fuel : Nat) (fs : String → Option String) (d : Document) (s : String)
  | pc (fuel : Nat) (fs : String → Option String) (d : Document)
      (command : String) (arguments : Option String)
  | ps (fuel : Nat) (fs : String → Option String) (d : Document) (raw : String)
  | fstr (fuel : Nat) (fs : String → Option String) (s : String) (options : Options)

/-- The specification function a `Call` stands for. -/
def Call.spec : Call → Except ParseError Document
  | Call.fp fuel fs d cs current => first_pass fuel fs d cs current
  | Call.pt fuel fs d s => parse_token fuel fs d s
  | Call.pc fuel fs d command arguments => parse_command fuel fs d command arguments
  | Call.ps fuel fs d raw => parse_string fuel fs d raw
  | Call.fstr fuel fs s options => from_str fuel fs s options

/-- Structural-recursion twin of the mutual lexer family, one `gas` unit
per call. -/
def run : Nat → Call → Option (Except ParseError Document)
  | 0, _ => none
  | gas + 1, call =>
    match call with
    | Call.fp fuel fs d cs current =>
      (match cs with
       | [] => some (Except.ok (flush_text d current))
       | ch :: cs1 =>
         if ch = '\\' then
           match cs1 with
           | '{' :: cs2 => run gas (Call.fp fuel fs d cs2 (current.push '{'))
           | ch2 :: cs2 => run gas (Call.fp fuel fs d cs2 ((current.push '\\').push ch2))
           | [] => run gas (Call.fp fuel fs d [] current)
         else if ch = '{' then
           match cs1 with
           | [] => run gas (Call.fp fuel fs d [] (current.push '{'))
           | ch2 :: cs2 =>
             let inside := take_while_chars (lex_pred ch2) (ch2 :: cs2)
             if inside.2.head? = some '}' then
               match run gas (Call.pt fuel fs (flush_text d current) (String.mk inside.1)) with
               | none => none
               | some (Except.error e) => some (Except.error e)
               | some (Except.ok d1) => run gas (Call.fp fuel fs d1 inside.2.tail "")
             else
               run gas (Call.fp fuel fs d inside.2 ((current.push '{') ++ String.mk inside.1))
         else run gas (Call.fp fuel fs d cs1 (current.push ch)))
    | Call.pt fuel fs d s =>
      (match s.data with
       | [] => some (Except.ok (d.push_token (Token.text "\x7b\x7d")))
       | '%' :: rest =>
         let stripped_and_trimmed := trim_chars rest
         (match split_once_char ' ' stripped_and_trimmed with
          | some (command, arguments) =>
            run gas (Call.pc fuel fs d (String.mk command) (some (String.mk arguments)))
          | none => run gas (Call.pc fuel fs d (String.mk stripped_and_trimmed) none))
       | _ :: _ => some (Except.ok (d.push_token (Token.var s))))
    | Call.pc fuel fs d command arguments =>
      (match classify_command command arguments with
       | CommandAction.push t => some (Except.ok (d.push_token t))
       | CommandAction.setVar name value =>
         some (Except.ok { d with variables' := assocInsert d.variables' name value })
       | CommandAction.doInclude path =>
         (match fs path, fuel with
          | none, _ => some (Except.error (ParseError.readError path))
          | some _, 0 => some (Except.error ParseError.outOfFuel)
          | some content, fuel1 + 1 => run gas (Call.fp fuel1 fs d content.data ""))
       | CommandAction.doWrapInclude path =>
         (match fs path, fuel with
          | none, _ => some (Except.error (ParseError.readError path))
          | some _, 0 => some (Except.error ParseError.outOfFuel)
          | some content, fuel1 + 1 =>
            match run gas (Call.fstr fuel1 fs content d.options) with
            | none => none
            | some (Except.error e) => some (Except.error e)
            | some (Except.ok doc) =>
              some (Except.ok (d.push_token (Token.wrapInclude doc.tokens []))))
       | CommandAction.fail e => some (Except.error e))
    | Call.ps fuel fs d raw =>
      (match run gas (Call.fp fuel fs d raw.data "") with
       | none => none
       | some (Except.error e) => some (Except.error e)
       | some (Except.ok st) =>
         match st_run (gas + 1) st.tokens with
         | none => none
         | some (Except.error e) => some (Except.error e)
         | some (Except.ok doc_tokens) => some (Except.ok { st with tokens := doc_tokens }))
    | Call.fstr fuel fs s options =>
      run gas (Call.ps fuel fs
        { options := options
          template_path := none
          tokens := []
          variables' := []
          patterns := [] } s)

/-- Whether a token is the `End` marker. -/
def Token.isEnd : Token → Bool
  | Token.end_ => true
  | _ => false

/-- Depth-counting reading of "a composite opener is never followed by a
matching `End`": scanning left to right, a command token opens a
composite (depth + 1) and an `End` token closes the innermost open
composite (depth - 1); an `End` seen at depth 0 belongs to no composite
and is skipped, exactly as the structuring loop passes it through.  The
scan returns `true` iff the sequence ends while some composite is still
open, i.e. iff some opener has no matching `End`. -/
def has_unclosed : Nat → List Token → Bool
  | depth, [] => depth ≠ 0
  | depth, tok :: rest =>
    if tok.is_command then has_unclosed (depth + 1) rest
    else if tok.isEnd then
      match depth with
      | d + 1 => has_unclosed d rest
      | 0 => has_unclosed 0 rest
    else has_unclosed depth rest

/-- Removes every `Else`, `End` and `WrappedContent` marker from a token
list (used to state that the renderer ignores stray markers). -/
def erase_markers : List Token → List Token
  | [] => []
  | Token.else_ :: rest => erase_markers rest
  | Token.end_ :: rest => erase_markers rest
  | Token.wrappedContent :: rest => erase_markers rest
  | tok :: rest => tok :: erase_markers rest

/-! Small string facts used throughout. -/

theorem string_append_empty (s : String) : s ++ "" = s := by
  cases s with
  | mk data => show String.mk (data ++ []) = String.mk data; rw [List.append_nil]

theorem string_empty_append (s : String) : "" ++ s = s := rfl

theorem string_join_pair (a b : String) : String.join [a, b] = a ++ b := by
  show ("" ++ a) ++ b = a ++ b
  rw [string_empty_append]

/-! Step lemmas for the renderer. -/

@[simp] theorem tokens_to_string_nil (d : Document) : d.tokens_to_string [] = "" :=
  Document.tokens_to_string.eq_1 d

@[simp] theorem tokens_to_string_cons (d : Document) (t : Token) (rest : List Token) :
    d.tokens_to_string (t :: rest) = d.token_to_string t ++ d.tokens_to_string rest :=
  Document.tokens_to_string.eq_2 d t rest

@[simp] theorem token_to_string_text (d : Document) (s : String) :
    d.token_to_string (Token.text s) = s :=
  Document.token_to_string.eq_1 d s

theorem token_to_string_var (d : Document) (name : String) :
    d.token_to_string (Token.var name) =
      match assocGet d.variables' name with
      | some value => value
      | none => "\x7b" ++ name ++ "\x7d" :=
  Document.token_to_string.eq_2 d name

theorem token_to_string_ifSet_nonempty (d : Document) (v val : String)
    (ts : List Token) (els : Option (List Token))
    (hget : assocGet d.variables' v = some val) (hne : val ≠ "") :
    d.token_to_string (Token.ifSet v ts els) = d.tokens_to_string ts := by
  cases els with
  | some es => rw [Document.token_to_string.eq_3 d v ts val es hget, if_pos hne]
  | none => rw [Document.token_to_string.eq_4 d v ts val hget, if_pos hne]

theorem token_to_string_ifSet_empty_else (d : Document) (v : String)
    (ts es : List Token) (hget : assocGet d.variables' v = some "") :
    d.token_to_string (Token.ifSet v ts (some es)) = d.tokens_to_string es := by
  rw [Document.token_to_string.eq_3 d v ts "" es hget]
  simp

theorem token_to_string_ifSet_unset_else (d : Document) (v : String)
    (ts es : List Token) (hget : assocGet d.variables' v = none) :
    d.token_to_string (Token.ifSet v ts (some es)) = d.tokens_to_string es :=
  Document.token_to_string.eq_5 d v ts es hget

theorem token_to_string_ifSet_empty_none (d : Document) (v : String)
    (ts : List Token) (hget : assocGet d.variables' v = some "") :
    d.token_to_string (Token.ifSet v ts none) = "" := by
  rw [Document.token_to_string.eq_4 d v ts "" hget]
  simp

theorem token_to_string_ifSet_unset_none (d : Document) (v : String)
    (ts : List Token) (hget : assocGet d.variables' v = none) :
    d.token_to_string (Token.ifSet v ts none) = "" :=
  Document.token_to_string.eq_6 d v ts hget

theorem token_to_string_pattern (d : Document) (n : String) (ts : List Token) :
    d.token_to_string (Token.pattern n ts) =
      match assocGet d.patterns n with
      | some pats => String.join pats
      | none => "" :=
  Document.token_to_string.eq_7 d n ts

@[simp] theorem token_to_string_wrapInclude (d : Document) (doc ts : List Token) :
    d.token_to_string (Token.wrapInclude doc ts) = "" :=
  Document.token_to_string.eq_8 d doc ts

@[simp] theorem token_to_string_wrappedContent (d : Document) :
    d.token_to_string Token.wrappedContent = "" :=
  Document.token_to_string.eq_9 d

@[simp] theorem token_to_string_else (d : Document) :
    d.token_to_string Token.else_ = "" :=
  Document.token_to_string.eq_10 d

@[simp] theorem token_to_string_end (d : Document) :
    d.token_to_string Token.end_ = "" :=
  Document.token_to_string.eq_11 d

/-! Step lemmas for the lexer `first_pass`. -/

theorem first_pass_nil (fuel : Nat) (fs : String → Option String) (d : Document)
    (current : String) :
    first_pass fuel fs d [] current = Except.ok (flush_text d current) := by
  rw [first_pass.eq_def]

theorem first_pass_esc_brace (fuel : Nat) (fs : String → Option String) (d : Document)
    (cs : List Char) (current : String) :
    first_pass fuel fs d ('\\' :: '{' :: cs) current =
      first_pass fuel fs d cs (current.push '{') := by
  rw [first_pass.eq_def]
  simp

theorem first_pass_esc_other (fuel : Nat) (fs : String → Option String) (d : Document)
    (c : Char) (cs : List Char) (current : String) (h : c ≠ '{') :
    first_pass fuel fs d ('\\' :: c :: cs) current =
      first_pass fuel fs d cs ((current.push '\\').push c) := by
  rw [first_pass.eq_def]
  simp [h]

theorem first_pass_esc_end (fuel : Nat) (fs : String → Option String) (d : Document)
    (current : String) :
    first_pass fuel fs d ['\\'] current = first_pass fuel fs d [] current := by
  rw [first_pass.eq_def]
  simp

theorem first_pass_plain (fuel : Nat) (fs : String → Option String) (d : Document)
    (c : Char) (cs : List Char) (current : String) (h1 : c ≠ '\\') (h2 : c ≠ '{') :
    first_pass fuel fs d (c :: cs) current = first_pass fuel fs d cs (current.push c) := by
  rw [first_pass.eq_def]
  simp [h1, h2]

theorem first_pass_brace_end (fuel : Nat) (fs : String → Option String) (d : Document)
    (current : String) :
    first_pass fuel fs d ['{'] current = first_pass fuel fs d [] (current.push '{') := by
  rw [first_pass.eq_def]
  split
  · rename_i heq
    simp at heq
  · rename_i x rest heq
    injection heq with h1 h2
    subst h1
    subst h2
    rfl

theorem first_pass_brace (fuel : Nat) (fs : String → Option String) (d : Document)
    (c : Char) (cs : List Char) (current : String) :
    first_pass fuel fs d ('{' :: c :: cs) current =
      (let inside := take_while_chars (lex_pred c) (c :: cs)
       if inside.2.head? = some '}' then
         match parse_token fuel fs (flush_text d current) (String.mk inside.1) with
         | Except.error e => Except.error e
         | Except.ok d1 => first_pass fuel fs d1 inside.2.tail ""
       else first_pass fuel fs d inside.2 ((current.push '{') ++ String.mk inside.1)) := by
  rw [first_pass.eq_def]
  split
  · rename_i heq
    simp at heq
  · rename_i x rest heq
    injection heq with h1 h2
    subst h1
    subst h2
    rfl

/-! Step lemmas for the structuring pass, phrased over `dcs_plain`. -/

theorem dcs_plain_nil (cmd : Token) :
    dcs_plain cmd [] = Except.error ParseError.unclosedCommand := by
  rw [dcs_plain, do_command_structuring.eq_def]

theorem dcs_plain_end (cmd : Token) (rest : List Token) :
    dcs_plain cmd (Token.end_ :: rest) = Except.ok (cmd, rest) := by
  rw [dcs_plain, do_command_structuring.eq_def]

theorem dcs_plain_cons (cmd tok : Token) (rest : List Token) (hne : tok ≠ Token.end_) :
    dcs_plain cmd (tok :: rest) =
      if tok.is_command then
        match dcs_plain tok rest with
        | Except.error e => Except.error e
        | Except.ok (st, rest1) => dcs_plain (push_into_command cmd st) rest1
      else dcs_plain (push_into_command cmd tok) rest := by
  simp only [dcs_plain]
  rw [do_command_structuring.eq_def]
  cases tok
  case end_ => exact absurd rfl hne
  case ifSet v ts els =>
    simp only [Token.is_command, reduceIte]
    cases h1 : do_command_structuring (Token.ifSet v ts els) rest with
    | error e => simp [dcs_plain, h1]
    | ok p =>
      obtain ⟨st, s1⟩ := p
      simp only [dcs_plain, h1]
      cases h2 : do_command_structuring (push_into_command cmd st) s1.val with
      | error e => simp [h2]
      | ok q =>
        obtain ⟨t, s2⟩ := q
        simp [h2]
  case pattern n ts =>
    simp only [Token.is_command, reduceIte]
    cases h1 : do_command_structuring (Token.pattern n ts) rest with
    | error e => simp [dcs_plain, h1]
    | ok p =>
      obtain ⟨st, s1⟩ := p
      simp only [dcs_plain, h1]
      cases h2 : do_command_structuring (push_into_command cmd st) s1.val with
      | error e => simp [h2]
      | ok q =>
        obtain ⟨t, s2⟩ := q
        simp [h2]
  case wrapInclude a b =>
    simp only [Token.is_command, reduceIte]
    cases h1 : do_command_structuring (Token.wrapInclude a b) rest with
    | error e => simp [dcs_plain, h1]
    | ok p =>
      obtain ⟨st, s1⟩ := p
      simp only [dcs_plain, h1]
      cases h2 : do_command_structuring (push_into_command cmd st) s1.val with
      | error e => simp [h2]
      | ok q =>
        obtain ⟨t, s2⟩ := q
        simp [h2]
  case text s =>
    simp only [Token.is_command, reduceIte]
    cases h1 : do_command_structuring (push_into_command cmd (Token.text s)) rest with
    | error e => simp [dcs_plain, h1]
    | ok p =>
      obtain ⟨t, s1⟩ := p
      simp [dcs_plain, h1]
  case var n =>
    simp only [Token.is_command, reduceIte]
    cases h1 : do_command_structuring (push_into_command cmd (Token.var n)) rest with
    | error e => simp [dcs_plain, h1]
    | ok p =>
      obtain ⟨t, s1⟩ := p
      simp [dcs_plain, h1]
  case wrappedContent =>
    simp only [Token.is_command, reduceIte]
    cases h1 : do_command_structuring (push_into_command cmd (Token.wrappedContent)) rest with
    | error e => simp [dcs_plain, h1]
    | ok p =>
      obtain ⟨t, s1⟩ := p
      simp [dcs_plain, h1]
  case else_ =>
    simp only [Token.is_command, reduceIte]
    cases h1 : do_command_structuring (push_into_command cmd (Token.else_)) rest with
    | error e => simp [dcs_plain, h1]
    | ok p =>
      obtain ⟨t, s1⟩ := p
      simp [dcs_plain, h1]

theorem st_nil : structure_tokens [] = Except.ok [] := by
  rw [structure_tokens.eq_def]

theorem st_wrap (doc ts : List Token) (rest : List Token) :
    structure_tokens (Token.wrapInclude doc ts :: rest) =
      match dcs_plain (Token.wrapInclude doc ts) rest with
      | Except.error e => Except.error e
      | Except.ok (wrap, rest1) =>
        match structure_tokens rest1 with
        | Except.error e => Except.error e
        | Except.ok doc_tokens =>
          Except.ok
            ((match wrap with
              | Token.wrapInclude doc2 ts2 => splice_wrapped doc2 ts2
              | _ => []) ++ doc_tokens) := by
  rw [structure_tokens.eq_def]
  cases h1 : do_command_structuring (Token.wrapInclude doc ts) rest with
  | error e => simp [dcs_plain, h1]
  | ok p =>
    obtain ⟨wrap, s1⟩ := p
    simp [dcs_plain, h1]

theorem st_cmd (tok : Token) (rest : List Token) (hc : tok.is_command = true)
    (hw : ∀ a b, tok ≠ Token.wrapInclude a b) :
    structure_tokens (tok :: rest) =
      match dcs_plain tok rest with
      | Except.error e => Except.error e
      | Except.ok (t, rest1) =>
        match structure_tokens rest1 with
        | Except.error e => Except.error e
        | Except.ok doc_tokens => Except.ok (t :: doc_tokens) := by
  cases tok
  case wrapInclude a b => exact absurd rfl (hw a b)
  case text s => simp [Token.is_command] at hc
  case var n => simp [Token.is_command] at hc
  case wrappedContent => simp [Token.is_command] at hc
  case else_ => simp [Token.is_command] at hc
  case end_ => simp [Token.is_command] at hc
  case ifSet v ts els =>
    rw [structure_tokens.eq_def]
    simp only [Token.is_command, reduceIte]
    cases h1 : do_command_structuring (Token.ifSet v ts els) rest with
    | error e => simp [dcs_plain, h1]
    | ok p =>
      obtain ⟨t, s1⟩ := p
      simp [dcs_plain, h1]
  case pattern n ts =>
    rw [structure_tokens.eq_def]
    simp only [Token.is_command, reduceIte]
    cases h1 : do_command_structuring (Token.pattern n ts) rest with
    | error e => simp [dcs_plain, h1]
    | ok p =>
      obtain ⟨t, s1⟩ := p
      simp [dcs_plain, h1]

theorem st_plain (tok : Token) (rest : List Token) (hc : tok.is_command = false) :
    structure_tokens (tok :: rest) =
      match structure_tokens rest with
      | Except.error e => Except.error e
      | Except.ok doc_tokens => Except.ok (tok :: doc_tokens) := by
  cases tok
  case ifSet v ts els => simp [Token.is_command] at hc
  case pattern n ts => simp [Token.is_command] at hc
  case wrapInclude a b => simp [Token.is_command] at hc
  all_goals
    rw [structure_tokens.eq_def]
    simp only [Token.is_command, Bool.false_eq_true, if_false]

theorem dcs_run_agrees :
    ∀ (gas : Nat) (cmd : Token) (toks : List Token) (r : Except ParseError (Token × List Token)),
      dcs_run gas cmd toks = some r → dcs_plain cmd toks = r := by
  intro gas
  induction gas with
  | zero => intro cmd toks r h; simp [dcs_run] at h
  | succ gas ih =>
    intro cmd toks r h
    cases toks with
    | nil =>
      simp only [dcs_run, Option.some.injEq] at h
      subst h
      exact dcs_plain_nil cmd
    | cons tok rest =>
      cases tok
      case end_ =>
        simp only [dcs_run, Option.some.injEq] at h
        subst h
        exact dcs_plain_end cmd rest
      case ifSet v ts els =>
        rw [dcs_plain_cons cmd (Token.ifSet v ts els) rest (fun heq => Token.noConfusion heq)]
        simp only [dcs_run] at h
        simp only [Token.is_command, reduceIte] at h ⊢
        cases hh : dcs_run gas (Token.ifSet v ts els) rest with
        | none => rw [hh] at h; simp at h
        | some x =>
          rw [hh] at h
          cases x with
          | error e =>
            simp only [Option.some.injEq] at h
            subst h
            rw [ih _ _ _ hh]
          | ok p =>
            obtain ⟨st, rest1⟩ := p
            rw [ih _ _ _ hh]
            exact ih _ _ _ h
      case pattern n ts =>
        rw [dcs_plain_cons cmd (Token.pattern n ts) rest (fun heq => Token.noConfusion heq)]
        simp only [dcs_run] at h
        simp only [Token.is_command, reduceIte] at h ⊢
        cases hh : dcs_run gas (Token.pattern n ts) rest with
        | none => rw [hh] at h; simp at h
        | some x =>
          rw [hh] at h
          cases x with
          | error e =>
            simp only [Option.some.injEq] at h
            subst h
            rw [ih _ _ _ hh]
          | ok p =>
            obtain ⟨st, rest1⟩ := p
            rw [ih _ _ _ hh]
            exact ih _ _ _ h
      case wrapInclude a b =>
        rw [dcs_plain_cons cmd (Token.wrapInclude a b) rest (fun heq => Token.noConfusion heq)]
        simp only [dcs_run] at h
        simp only [Token.is_command, reduceIte] at h ⊢
        cases hh : dcs_run gas (Token.wrapInclude a b) rest with
        | none => rw [hh] at h; simp at h
        | some x =>
          rw [hh] at h
          cases x with
          | error e =>
            simp only [Option.some.injEq] at h
            subst h
            rw [ih _ _ _ hh]
          | ok p =>
            obtain ⟨st, rest1⟩ := p
            rw [ih _ _ _ hh]
            exact ih _ _ _ h
      case text s =>
        rw [dcs_plain_cons cmd (Token.text s) rest (fun heq => Token.noConfusion heq)]
        simp only [dcs_run] at h
        simp only [Token.is_command, Bool.false_eq_true, if_false, reduceIte] at h ⊢
        exact ih _ _ _ h
      case var n =>
        rw [dcs_plain_cons cmd (Token.var n) rest (fun heq => Token.noConfusion heq)]
        simp only [dcs_run] at h
        simp only [Token.is_command, Bool.false_eq_true, if_false, reduceIte] at h ⊢
        exact ih _ _ _ h
      case wrappedContent =>
        rw [dcs_plain_cons cmd (Token.wrappedContent) rest (fun heq => Token.noConfusion heq)]
        simp only [dcs_run] at h
        simp only [Token.is_command, Bool.false_eq_true, if_false, reduceIte] at h ⊢
        exact ih _ _ _ h
      case else_ =>
        rw [dcs_plain_cons cmd (Token.else_) rest (fun heq => Token.noConfusion heq)]
        simp only [dcs_run] at h
        simp only [Token.is_command, Bool.false_eq_true, if_false, reduceIte] at h ⊢
        exact ih _ _ _ h

theorem st_run_agrees :
    ∀ (gas : Nat) (toks : List Token) (r : Except ParseError (List Token)),
      st_run gas toks = some r → structure_tokens toks = r := by
  intro gas
  induction gas with
  | zero => intro toks r h; simp [st_run] at h
  | succ gas ih =>
    intro toks r h
    cases toks with
    | nil =>
      simp only [st_run, Option.some.injEq] at h
      subst h
      exact st_nil
    | cons tok rest =>
      cases tok
      case wrapInclude a b =>
        rw [st_wrap a b rest]
        simp only [st_run] at h
        cases hh : dcs_run (gas + 1) (Token.wrapInclude a b) rest with
        | none => simp [hh] at h
        | some x =>
          cases x with
          | error e =>
            simp only [hh, Option.some.injEq] at h
            subst h
            simp only [dcs_run_agrees _ _ _ _ hh]
          | ok p =>
            obtain ⟨wrap, rest1⟩ := p
            simp only [hh] at h
            simp only [dcs_run_agrees _ _ _ _ hh]
            cases hst : st_run gas rest1 with
            | none => simp [hst] at h
            | some y =>
              cases y with
              | error e =>
                simp only [hst, Option.some.injEq] at h
                subst h
                simp only [ih _ _ hst]
              | ok dts =>
                simp only [hst, Option.some.injEq] at h
                subst h
                simp only [ih _ _ hst]
      case ifSet v ts els =>
        rw [st_cmd (Token.ifSet v ts els) rest rfl (fun a b heq => Token.noConfusion heq)]
        simp only [st_run] at h
        simp only [Token.is_command, reduceIte] at h
        cases hh : dcs_run (gas + 1) (Token.ifSet v ts els) rest with
        | none => simp [hh] at h
        | some x =>
          cases x with
          | error e =>
            simp only [hh, Option.some.injEq] at h
            subst h
            simp only [dcs_run_agrees _ _ _ _ hh]
          | ok p =>
            obtain ⟨t, rest1⟩ := p
            simp only [hh] at h
            simp only [dcs_run_agrees _ _ _ _ hh]
            cases hst : st_run gas rest1 with
            | none => simp [hst] at h
            | some y =>
              cases y with
              | error e =>
                simp only [hst, Option.some.injEq] at h
                subst h
                simp only [ih _ _ hst]
              | ok dts =>
                simp only [hst, Option.some.injEq] at h
                subst h
                simp only [ih _ _ hst]
      case pattern n ts =>
        rw [st_cmd (Token.pattern n ts) rest rfl (fun a b heq => Token.noConfusion heq)]
        simp only [st_run] at h
        simp only [Token.is_command, reduceIte] at h
        cases hh : dcs_run (gas + 1) (Token.pattern n ts) rest with
        | none => simp [hh] at h
        | some x =>
          cases x with
          | error e =>
            simp only [hh, Option.some.injEq] at h
            subst h
            simp only [dcs_run_agrees _ _ _ _ hh]
          | ok p =>
            obtain ⟨t, rest1⟩ := p
            simp only [hh] at h
            simp only [dcs_run_agrees _ _ _ _ hh]
            cases hst : st_run gas rest1 with
            | none => simp [hst] at h
            | some y =>
              cases y with
              | error e =>
                simp only [hst, Option.some.injEq] at h
                subst h
                simp only [ih _ _ hst]
              | ok dts =>
                simp only [hst, Option.some.injEq] at h
                subst h
                simp only [ih _ _ hst]
      case text s =>
        rw [st_plain (Token.text s) rest rfl]
        simp only [st_run] at h
        simp only [Token.is_command, Bool.false_eq_true, if_false, reduceIte] at h
        cases hst : st_run gas rest with
        | none => simp [hst] at h
        | some y =>
          cases y with
          | error e =>
            simp only [hst, Option.some.injEq] at h
            subst h
            simp only [ih _ _ hst]
          | ok dts =>
            simp only [hst, Option.some.injEq] at h
            subst h
            simp only [ih _ _ hst]
      case var n =>
        rw [st_plain (Token.var n) rest rfl]
        simp only [st_run] at h
        simp only [Token.is_command, Bool.false_eq_true, if_false, reduceIte] at h
        cases hst : st_run gas rest with
        | none => simp [hst] at h
        | some y =>
          cases y with
          | error e =>
            simp only [hst, Option.some.injEq] at h
            subst h
            simp only [ih _ _ hst]
          | ok dts =>
            simp only [hst, Option.some.injEq] at h
            subst h
            simp only [ih _ _ hst]
      case wrappedContent =>
        rw [st_plain (Token.wrappedContent) rest rfl]
        simp only [st_run] at h
        simp only [Token.is_command, Bool.false_eq_true, if_false, reduceIte] at h
        cases hst : st_run gas rest with
        | none => simp [hst] at h
        | some y =>
          cases y with
          | error e =>
            simp only [hst, Option.some.injEq] at h
            subst h
            simp only [ih _ _ hst]
          | ok dts =>
            simp only [hst, Option.some.injEq] at h
            subst h
            simp only [ih _ _ hst]
      case else_ =>
        rw [st_plain (Token.else_) rest rfl]
        simp only [st_run] at h
        simp only [Token.is_command, Bool.false_eq_true, if_false, reduceIte] at h
        cases hst : st_run gas rest with
        | none => simp [hst] at h
        | some y =>
          cases y with
          | error e =>
            simp only [hst, Option.some.injEq] at h
            subst h
            simp only [ih _ _ hst]
          | ok dts =>
            simp only [hst, Option.some.injEq] at h
            subst h
            simp only [ih _ _ hst]
      case end_ =>
        rw [st_plain (Token.end_) rest rfl]
        simp only [st_run] at h
        simp only [Token.is_command, Bool.false_eq_true, if_false, reduceIte] at h
        cases hst : st_run gas rest with
        | none => simp [hst] at h
        | some y =>
          cases y with
          | error e =>
            simp only [hst, Option.some.injEq] at h
            subst h
            simp only [ih _ _ hst]
          | ok dts =>
            simp only [hst, Option.some.injEq] at h
            subst h
            simp only [ih _ _ hst]

theorem run_agrees :
    ∀ (gas : Nat) (call : Call) (r : Except ParseError Document),
      run gas call = some r → call.spec = r := by
  intro gas
  induction gas with
  | zero => intro call r h; simp [run] at h
  | succ gas ih =>
    intro call r h
    cases call with
    | fp fuel fs d cs current =>
      simp only [Call.spec]
      cases cs with
      | nil =>
        simp only [run, Option.some.injEq] at h
        subst h
        exact first_pass_nil fuel fs d current
      | cons ch cs1 =>
        by_cases hesc : ch = '\\'
        · subst hesc
          cases cs1 with
          | nil =>
            rw [first_pass_esc_end]
            simp only [run, Char.reduceEq, reduceIte] at h
            have := ih _ _ h
            simpa only [Call.spec] using this
          | cons c2 cs2 =>
            by_cases hbr : c2 = '\x7b'
            · subst hbr
              rw [first_pass_esc_brace]
              simp only [run, Char.reduceEq, reduceIte] at h
              have := ih _ _ h
              simpa only [Call.spec] using this
            · rw [first_pass_esc_other fuel fs d c2 cs2 current hbr]
              simp only [run, Char.reduceEq, reduceIte, hbr] at h
              have := ih _ _ h
              simpa only [Call.spec] using this
        · by_cases hob : ch = '\x7b'
          · subst hob
            cases cs1 with
            | nil =>
              rw [first_pass_brace_end]
              simp only [run, Char.reduceEq, reduceIte] at h
              have := ih _ _ h
              simpa only [Call.spec] using this
            | cons c2 cs2 =>
              rw [first_pass_brace fuel fs d c2 cs2 current]
              simp only [run, Char.reduceEq, reduceIte] at h
              by_cases hh : (take_while_chars (lex_pred c2) (c2 :: cs2)).2.head? = some '\x7d'
              · simp only [hh, if_pos] at h ⊢
                cases hpt : run gas (Call.pt fuel fs (flush_text d current)
                    (String.mk (take_while_chars (lex_pred c2) (c2 :: cs2)).1)) with
                | none => simp [hpt] at h
                | some x =>
                  have hx := ih _ _ hpt
                  simp only [Call.spec] at hx
                  cases x with
                  | error e =>
                    simp only [hpt, Option.some.injEq] at h
                    subst h
                    simp only [hx]
                  | ok d1 =>
                    simp only [hpt] at h
                    simp only [hx]
                    have := ih _ _ h
                    simpa only [Call.spec] using this
              · simp only [hh, if_neg, Bool.false_eq_true] at h ⊢
                have := ih _ _ h
                simpa only [Call.spec] using this
          · rw [first_pass_plain fuel fs d ch cs1 current hesc hob]
            simp only [run, Char.reduceEq, reduceIte, hesc, hob] at h
            have := ih _ _ h
            simpa only [Call.spec] using this
    | pt fuel fs d s =>
      simp only [Call.spec]
      rw [parse_token.eq_1]
      simp only [run] at h
      cases hs : s.data with
      | nil =>
        simp only [hs, Option.some.injEq] at h
        subst h
        rfl
      | cons c rest =>
        by_cases hp : c = '%'
        · subst hp
          simp only [hs] at h ⊢
          cases hsp : split_once_char ' ' (trim_chars rest) with
          | none =>
            simp only [hsp] at h ⊢
            have := ih _ _ h
            simpa only [Call.spec] using this
          | some p =>
            obtain ⟨command, arguments⟩ := p
            simp only [hsp] at h ⊢
            have := ih _ _ h
            simpa only [Call.spec] using this
        · simp only [hs, hp, Option.some.injEq] at h ⊢
          subst h
          rfl
    | pc fuel fs d command arguments =>
      simp only [Call.spec]
      rw [parse_command.eq_def]
      simp only [run] at h
      cases hca : classify_command command arguments with
      | push t =>
        simp only [hca, Option.some.injEq] at h
        subst h
        rfl
      | setVar name value =>
        simp only [hca, Option.some.injEq] at h
        subst h
        rfl
      | fail e =>
        simp only [hca, Option.some.injEq] at h
        subst h
        rfl
      | doInclude path =>
        simp only [hca] at h ⊢
        cases hfs : fs path with
        | none =>
          simp only [hfs, Option.some.injEq] at h
          subst h
          rfl
        | some content =>
          cases fuel with
          | zero =>
            simp only [hfs, Option.some.injEq] at h
            subst h
            rfl
          | succ fuel1 =>
            simp only [hfs] at h ⊢
            have := ih _ _ h
            simpa only [Call.spec] using this
      | doWrapInclude path =>
        simp only [hca] at h ⊢
        cases hfs : fs path with
        | none =>
          simp only [hfs, Option.some.injEq] at h
          subst h
          rfl
        | some content =>
          cases fuel with
          | zero =>
            simp only [hfs, Option.some.injEq] at h
            subst h
            rfl
          | succ fuel1 =>
            simp only [hfs] at h ⊢
            cases hws : run gas (Call.fstr fuel1 fs content d.options) with
            | none => simp [hws] at h
            | some x =>
              have hx := ih _ _ hws
              simp only [Call.spec] at hx
              cases x with
              | error e =>
                simp only [hws, Option.some.injEq] at h
                subst h
                simp only [hx]
              | ok doc =>
                simp only [hws, Option.some.injEq] at h
                subst h
                simp only [hx]
    | ps fuel fs d raw =>
      simp only [Call.spec]
      rw [parse_string.eq_1]
      simp only [run] at h
      cases hfp : run gas (Call.fp fuel fs d raw.data "") with
      | none => simp [hfp] at h
      | some x =>
        have hx := ih _ _ hfp
        simp only [Call.spec] at hx
        cases x with
        | error e =>
          simp only [hfp, Option.some.injEq] at h
          subst h
          simp only [hx]
        | ok st =>
          simp only [hfp] at h
          simp only [hx]
          cases hst : st_run (gas + 1) st.tokens with
          | none => simp [hst] at h
          | some y =>
            have hy := st_run_agrees _ _ _ hst
            cases y with
            | error e =>
              simp only [hst, Option.some.injEq] at h
              subst h
              simp only [hy]
            | ok doc_tokens =>
              simp only [hst, Option.some.injEq] at h
              subst h
              simp only [hy]
    | fstr fuel fs s options =>
      simp only [Call.spec]
      rw [from_str.eq_1]
      simp only [run] at h
      have := ih _ _ h
      simpa only [Call.spec] using this

theorem tokens_to_string_append (d : Document) (xs ys : List Token) :
    d.tokens_to_string (xs ++ ys) = d.tokens_to_string xs ++ d.tokens_to_string ys := by
  induction xs with
  | nil => rw [List.nil_append, tokens_to_string_nil, string_empty_append]
  | cons t rest ih =>
    rw [List.cons_append, tokens_to_string_cons, tokens_to_string_cons, ih,
      String.append_assoc]

/-! Association-list facts. -/

theorem assocGet_insert_self {β : Type} (l : List (String × β)) (k : String) (v : β) :
    assocGet (assocInsert l k v) k = some v := by
  induction l with
  | nil => simp [assocInsert, assocGet]
  | cons p rest ih =>
    obtain ⟨k1, v1⟩ := p
    by_cases hk : k1 = k
    · subst hk
      simp [assocInsert, assocGet]
    · simp [assocInsert, assocGet, hk, ih]

/-- A string obtained by `push` is never empty. -/
theorem string_push_ne_empty (s : String) (c : Char) : s.push c ≠ "" := by
  intro h
  have hd := congrArg String.data h
  simp [String.push] at hd

/-- Appending one more character commutes with `String.mk` of a cons. -/
theorem string_append_mk_cons (s : String) (c : Char) (l : List Char) :
    s ++ String.mk (c :: l) = (s.push c) ++ String.mk l := by
  cases s with
  | mk data =>
    show String.mk (data ++ (c :: l)) = String.mk ((data ++ [c]) ++ l)
    rw [List.append_assoc, List.singleton_append]

theorem string_mk_cons_ne_empty (c : Char) (l : List Char) : String.mk (c :: l) ≠ "" := by
  intro h
  have hd := congrArg String.data h
  simp at hd

/-! Facts about `has_unclosed` and the structuring pass, used for C6. -/

theorem isEnd_false_of_ne (tok : Token) (h : tok ≠ Token.end_) : tok.isEnd = false := by
  cases tok
  case end_ => exact absurd rfl h
  all_goals rfl

theorem hu_nil (depth : Nat) : has_unclosed depth [] = decide (depth ≠ 0) := rfl

theorem hu_cmd (depth : Nat) (tok : Token) (rest : List Token) (h : tok.is_command = true) :
    has_unclosed depth (tok :: rest) = has_unclosed (depth + 1) rest := by
  simp [has_unclosed, h]

theorem hu_end_succ (d : Nat) (rest : List Token) :
    has_unclosed (d + 1) (Token.end_ :: rest) = has_unclosed d rest := by
  simp [has_unclosed, Token.is_command, Token.isEnd]

theorem hu_end_zero (rest : List Token) :
    has_unclosed 0 (Token.end_ :: rest) = has_unclosed 0 rest := by
  simp [has_unclosed, Token.is_command, Token.isEnd]

theorem hu_plain (depth : Nat) (tok : Token) (rest : List Token)
    (h1 : tok.is_command = false) (h2 : tok ≠ Token.end_) :
    has_unclosed depth (tok :: rest) = has_unclosed depth rest := by
  simp [has_unclosed, h1, isEnd_false_of_ne tok h2]

theorem dcs_plain_length (cmd : Token) (toks : List Token) (t : Token) (rest : List Token)
    (h : dcs_plain cmd toks = Except.ok (t, rest)) : rest.length ≤ toks.length := by
  rw [dcs_plain] at h
  cases hcs : do_command_structuring cmd toks with
  | error e => rw [hcs] at h; cases h
  | ok p =>
    obtain ⟨t1, s⟩ := p
    rw [hcs] at h
    simp only [Except.ok.injEq, Prod.mk.injEq] at h
    obtain ⟨-, h2⟩ := h
    exact h2 ▸ s.property

theorem dcs_plain_error_unclosed :
    ∀ (n : Nat) (toks : List Token), toks.length ≤ n →
      ∀ (cmd : Token) (e : ParseError), dcs_plain cmd toks = Except.error e →
        e = ParseError.unclosedCommand := by
  intro n
  induction n with
  | zero =>
    intro toks hlen cmd e h
    rw [List.length_eq_zero.mp (Nat.le_zero.mp hlen)] at h
    rw [dcs_plain_nil] at h
    cases h
    rfl
  | succ n ihn =>
    intro toks hlen cmd e h
    cases toks with
    | nil =>
      rw [dcs_plain_nil] at h
      cases h
      rfl
    | cons tok rest =>
      by_cases hend : tok = Token.end_
      · subst hend
        rw [dcs_plain_end] at h
        cases h
      · rw [dcs_plain_cons cmd tok rest hend] at h
        simp only [List.length_cons, Nat.add_le_add_iff_right] at hlen
        by_cases hc : tok.is_command
        · simp only [hc, if_true] at h
          cases h1 : dcs_plain tok rest with
          | error e1 =>
            rw [h1] at h
            cases h
            exact ihn rest hlen tok e h1
          | ok p =>
            obtain ⟨st, rest1⟩ := p
            rw [h1] at h
            exact ihn rest1 (Nat.le_trans (dcs_plain_length _ _ _ _ h1) hlen)
              (push_into_command cmd st) e h
        · simp only [hc, if_false, Bool.false_eq_true] at h
          exact ihn rest hlen (push_into_command cmd tok) e h

theorem dcs_plain_has_unclosed :
    ∀ (n : Nat) (toks : List Token), toks.length ≤ n →
      ∀ (cmd t : Token) (rest : List Token),
        dcs_plain cmd toks = Except.ok (t, rest) →
        ∀ (dep : Nat), has_unclosed (dep + 1) toks = has_unclosed dep rest := by
  intro n
  induction n with
  | zero =>
    intro toks hlen cmd t rest h
    rw [List.length_eq_zero.mp (Nat.le_zero.mp hlen)] at h
    rw [dcs_plain_nil] at h
    cases h
  | succ n ihn =>
    intro toks hlen cmd t rest h dep
    cases toks with
    | nil =>
      rw [dcs_plain_nil] at h
      cases h
    | cons tok rest1 =>
      simp only [List.length_cons, Nat.add_le_add_iff_right] at hlen
      by_cases hend : tok = Token.end_
      · subst hend
        rw [dcs_plain_end] at h
        simp only [Except.ok.injEq, Prod.mk.injEq] at h
        obtain ⟨-, h2⟩ := h
        subst h2
        exact hu_end_succ dep rest1
      · rw [dcs_plain_cons cmd tok rest1 hend] at h
        by_cases hc : tok.is_command
        · simp only [hc, if_true] at h
          rw [hu_cmd (dep + 1) tok rest1 hc]
          cases h1 : dcs_plain tok rest1 with
          | error e1 => rw [h1] at h; cases h
          | ok p =>
            obtain ⟨st, rest2⟩ := p
            rw [h1] at h
            have step1 := ihn rest1 hlen tok st rest2 h1 (dep + 1)
            have step2 := ihn rest2 (Nat.le_trans (dcs_plain_length _ _ _ _ h1) hlen)
              (push_into_command cmd st) t rest h dep
            rw [step1, step2]
        · simp only [hc, if_false, Bool.false_eq_true] at h
          rw [hu_plain (dep + 1) tok rest1 (Bool.not_eq_true _ ▸ (by simpa using hc)) hend]
          exact ihn rest1 hlen (push_into_command cmd tok) t rest h dep

theorem st_cmd_error (tok : Token) (rest : List Token) (hc : tok.is_command = true)
    (h : dcs_plain tok rest = Except.error ParseError.unclosedCommand) :
    structure_tokens (tok :: rest) = Except.error ParseError.unclosedCommand := by
  cases tok
  case wrapInclude a b => rw [st_wrap a b rest, h]
  case ifSet v ts els =>
    rw [st_cmd (Token.ifSet v ts els) rest rfl (fun a b heq => Token.noConfusion heq), h]
  case pattern n ts =>
    rw [st_cmd (Token.pattern n ts) rest rfl (fun a b heq => Token.noConfusion heq), h]
  all_goals simp [Token.is_command] at hc

theorem st_cmd_ok_error (tok : Token) (rest : List Token) (t : Token) (rest1 : List Token)
    (hc : tok.is_command = true) (h : dcs_plain tok rest = Except.ok (t, rest1))
    (hrec : structure_tokens rest1 = Except.error ParseError.unclosedCommand) :
    structure_tokens (tok :: rest) = Except.error ParseError.unclosedCommand := by
  cases tok
  case wrapInclude a b => rw [st_wrap a b rest, h]; simp only [hrec]
  case ifSet v ts els =>
    rw [st_cmd (Token.ifSet v ts els) rest rfl (fun a b heq => Token.noConfusion heq), h]
    simp only [hrec]
  case pattern n ts =>
    rw [st_cmd (Token.pattern n ts) rest rfl (fun a b heq => Token.noConfusion heq), h]
    simp only [hrec]
  all_goals simp [Token.is_command] at hc

theorem getLast?_of_cons (c : Char) (cs : List Char) (h : (c :: cs).getLast? ≠ some '\\') :
    cs.getLast? ≠ some '\\' := by
  cases cs with
  | nil => simp
  | cons d t => rwa [List.getLast?_cons_cons] at h

theorem lex_pure_text :
    ∀ (n : Nat) (cs : List Char), cs.length ≤ n → '\x7b' ∉ cs → cs.getLast? ≠ some '\\' →
      ∀ (fuel : Nat) (fs : String → Option String) (d : Document) (current : String),
        first_pass fuel fs d cs current = Except.ok (flush_text d (current ++ String.mk cs)) := by
  intro n
  induction n with
  | zero =>
    intro cs hlen _ _ fuel fs d current
    rw [List.length_eq_zero.mp (Nat.le_zero.mp hlen), first_pass_nil, string_append_empty]
  | succ n ihn =>
    intro cs hlen hnb hlast fuel fs d current
    cases cs with
    | nil => rw [first_pass_nil, string_append_empty]
    | cons c cs1 =>
      simp only [List.length_cons, Nat.add_le_add_iff_right] at hlen
      have hcnb : c ≠ '\x7b' := fun heq => hnb (heq ▸ List.mem_cons_self c cs1)
      by_cases hesc : c = '\\'
      · subst hesc
        cases cs1 with
        | nil => simp [List.getLast?] at hlast
        | cons c2 cs2 =>
          have hc2nb : c2 ≠ '\x7b' := fun heq =>
            hnb (List.mem_cons_of_mem _ (heq ▸ List.mem_cons_self c2 cs2))
          rw [first_pass_esc_other fuel fs d c2 cs2 current hc2nb]
          rw [ihn cs2 (Nat.le_of_succ_le hlen)
            (fun hm => hnb (List.mem_cons_of_mem _ (List.mem_cons_of_mem _ hm)))
            (getLast?_of_cons c2 cs2 (getLast?_of_cons _ _ hlast)) fuel fs d]
          rw [string_append_mk_cons, string_append_mk_cons]
      · rw [first_pass_plain fuel fs d c cs1 current hesc hcnb]
        rw [ihn cs1 hlen (fun hm => hnb (List.mem_cons_of_mem _ hm))
          (getLast?_of_cons c cs1 hlast) fuel fs d]
        rw [string_append_mk_cons]

theorem lex_pure_text_trailing :
    ∀ (n : Nat) (cs : List Char), cs.length ≤ n → '\x7b' ∉ cs → cs.getLast? ≠ some '\\' →
      ∀ (fuel : Nat) (fs : String → Option String) (d : Document) (current : String),
        first_pass fuel fs d (cs ++ ['\\']) current =
          Except.ok (flush_text d (current ++ String.mk cs)) := by
  intro n
  induction n with
  | zero =>
    intro cs hlen _ _ fuel fs d current
    rw [List.length_eq_zero.mp (Nat.le_zero.mp hlen)]
    rw [List.nil_append, first_pass_esc_end, first_pass_nil, string_append_empty]
  | succ n ihn =>
    intro cs hlen hnb hlast fuel fs d current
    cases cs with
    | nil => rw [List.nil_append, first_pass_esc_end, first_pass_nil, string_append_empty]
    | cons c cs1 =>
      simp only [List.length_cons, Nat.add_le_add_iff_right] at hlen
      have hcnb : c ≠ '\x7b' := fun heq => hnb (heq ▸ List.mem_cons_self c cs1)
      by_cases hesc : c = '\\'
      · subst hesc
        cases cs1 with
        | nil => simp [List.getLast?] at hlast
        | cons c2 cs2 =>
          have hc2nb : c2 ≠ '\x7b' := fun heq =>
            hnb (List.mem_cons_of_mem _ (heq ▸ List.mem_cons_self c2 cs2))
          rw [List.cons_append, List.cons_append]
          rw [first_pass_esc_other fuel fs d c2 (cs2 ++ ['\\']) current hc2nb]
          rw [ihn cs2 (Nat.le_of_succ_le hlen)
            (fun hm => hnb (List.mem_cons_of_mem _ (List.mem_cons_of_mem _ hm)))
            (getLast?_of_cons c2 cs2 (getLast?_of_cons _ _ hlast)) fuel fs d]
          rw [string_append_mk_cons, string_append_mk_cons]
      · rw [List.cons_append]
        rw [first_pass_plain fuel fs d c (cs1 ++ ['\\']) current hesc hcnb]
        rw [ihn cs1 hlen (fun hm => hnb (List.mem_cons_of_mem _ hm))
          (getLast?_of_cons c cs1 hlast) fuel fs d]
        rw [string_append_mk_cons]

/-! The claims. -/

/-- CLAIM C1 (amended), part "counterexample support": see
`claim_c1_counterexample`.  Amended statement: stray `Else`, `End` and
`WrappedContent` markers can survive structuring (for example a
top-level marker outside any open composite is passed through verbatim),
but the renderer ignores them: deleting every such marker from a token
list never changes the rendered output. -/
theorem claim_c1_amended_markers_ignored (d : Document) (toks : List Token) :
    d.tokens_to_string (erase_markers toks) = d.tokens_to_string toks := by
  induction toks with
  | nil => rfl
  | cons t rest ih =>
    cases t
    case else_ =>
      rw [show erase_markers (Token.else_ :: rest) = erase_markers rest from rfl,
        ih, tokens_to_string_cons, token_to_string_else, string_empty_append]
    case end_ =>
      rw [show erase_markers (Token.end_ :: rest) = erase_markers rest from rfl,
        ih, tokens_to_string_cons, token_to_string_end, string_empty_append]
    case wrappedContent =>
      rw [show erase_markers (Token.wrappedContent :: rest) = erase_markers rest from rfl,
        ih, tokens_to_string_cons, token_to_string_wrappedContent, string_empty_append]
    case text s =>
      rw [show erase_markers (Token.text s :: rest) = Token.text s :: erase_markers rest from rfl,
        tokens_to_string_cons, tokens_to_string_cons, ih]
    case var n =>
      rw [show erase_markers (Token.var n :: rest) = Token.var n :: erase_markers rest from rfl,
        tokens_to_string_cons, tokens_to_string_cons, ih]
    case ifSet v ts els =>
      rw [show erase_markers (Token.ifSet v ts els :: rest)
          = Token.ifSet v ts els :: erase_markers rest from rfl,
        tokens_to_string_cons, tokens_to_string_cons, ih]
    case pattern n ts =>
      rw [show erase_markers (Token.pattern n ts :: rest)
          = Token.pattern n ts :: erase_markers rest from rfl,
        tokens_to_string_cons, tokens_to_string_cons, ih]
    case wrapInclude a b =>
      rw [show erase_markers (Token.wrapInclude a b :: rest)
          = Token.wrapInclude a b :: erase_markers rest from rfl,
        tokens_to_string_cons, tokens_to_string_cons, ih]

/-- CLAIM C1, counterexample: the input `{%else}` parses successfully
and the resulting token tree handed to the renderer is exactly
`[Token.else_]` — an `Else` marker at top level survives structuring,
refuting the claim that no such marker can appear in the tree after a
successful parse. -/
theorem claim_c1_counterexample :
    from_str 0 (fun _ => none) "\x7b%else\x7d" Options.defaultOptions
      = Except.ok (Document.mk Options.defaultOptions none [Token.else_] [] []) :=
  run_agrees 20 (Call.fstr 0 (fun _ => none) "\x7b%else\x7d" Options.defaultOptions) _ rfl

/-- CLAIM C2 (amended): with the wrapped-content marker written
`{%wrapped-content}` (as the lexer actually accepts it), a document
`{%wrap-include f}X{%end}` whose resolved file `f` holds
`<a>{%wrapped-content}</a>` parses successfully and renders `<a>X</a>`:
the wrapped file is fully structured as a sub-document and the splice
body `X` replaces its wrapped-content marker in place. -/
theorem claim_c2_amended_wrap_include :
    from_str 1 (fun p => if p = "f" then some "<a>\x7b%wrapped-content\x7d</a>" else none)
        "\x7b%wrap-include f\x7dX\x7b%end\x7d" Options.defaultOptions
      = Except.ok (Document.mk Options.defaultOptions none
          [Token.text "<a>", Token.text "X", Token.text "</a>"] [] [])
    ∧ (Document.mk Options.defaultOptions none
        [Token.text "<a>", Token.text "X", Token.text "</a>"] [] []).compile = "<a>X</a>" := by
  constructor
  · exact run_agrees 100 (Call.fstr 1
      (fun p => if p = "f" then some "<a>\x7b%wrapped-content\x7d</a>" else none)
      "\x7b%wrap-include f\x7dX\x7b%end\x7d" Options.defaultOptions) _ rfl
  · simp [Document.compile]

/-- CLAIM C2, counterexample: with the file content written exactly as
the claim states it, `<a>{%wrapped-content%}</a>`, the trailing `%` is
lexed as part of the command name (`wrapped-content%`), which is not a
recognized command, so parsing the wrap-include document fails with a
command-argument error instead of succeeding. -/
theorem claim_c2_counterexample :
    from_str 1 (fun p => if p = "f" then some "<a>\x7b%wrapped-content%\x7d</a>" else none)
        "\x7b%wrap-include f\x7dX\x7b%end\x7d" Options.defaultOptions
      = Except.error (ParseError.commandArgumentInvalid "wrapped-content%" "") :=
  run_agrees 100 (Call.fstr 1
    (fun p => if p = "f" then some "<a>\x7b%wrapped-content%\x7d</a>" else none)
    "\x7b%wrap-include f\x7dX\x7b%end\x7d" Options.defaultOptions) _ rfl

/-- CLAIM C3: rendering a conditional `{%if-set v}A{%else}B{%end}`
emits the else body `B` when `v` is bound to the empty string, and the
primary body `A` when `v` is bound to any non-empty string. -/
theorem claim_c3_ifset_empty_counts_unset (d : Document) (v : String) (A B : List Token) :
    (assocGet d.variables' v = some "" →
      d.tokens_to_string [Token.ifSet v A (some B)] = d.tokens_to_string B) ∧
    (∀ s : String, assocGet d.variables' v = some s → s ≠ "" →
      d.tokens_to_string [Token.ifSet v A (some B)] = d.tokens_to_string A) := by
  constructor
  · intro h
    rw [tokens_to_string_cons, tokens_to_string_nil,
      token_to_string_ifSet_empty_else d v A B h, string_append_empty]
  · intro s hs hne
    rw [tokens_to_string_cons, tokens_to_string_nil,
      token_to_string_ifSet_nonempty d v s A (some B) hs hne, string_append_empty]

/-- CLAIM C3, witness at a concrete document. -/
theorem claim_c3_witness :
    ((Document.mk Options.defaultOptions none [] [("v", "")] []).tokens_to_string
        [Token.ifSet "v" [Token.text "A"] (some [Token.text "B"])]
      = (Document.mk Options.defaultOptions none [] [("v", "")] []).tokens_to_string
        [Token.text "B"]) ∧
    ((Document.mk Options.defaultOptions none [] [("v", "x")] []).tokens_to_string
        [Token.ifSet "v" [Token.text "A"] (some [Token.text "B"])]
      = (Document.mk Options.defaultOptions none [] [("v", "x")] []).tokens_to_string
        [Token.text "A"]) :=
  ⟨(claim_c3_ifset_empty_counts_unset
      (Document.mk Options.defaultOptions none [] [("v", "")] []) "v"
      [Token.text "A"] [Token.text "B"]).1 rfl,
   (claim_c3_ifset_empty_counts_unset
      (Document.mk Options.defaultOptions none [] [("v", "x")] []) "v"
      [Token.text "A"] [Token.text "B"]).2 "x" rfl (by decide)⟩

/-- CLAIM C4: a `Variable(name)` token with no binding in the variable
table renders as the reconstructed placeholder `{name}` (no error, no
silent omission), in any surrounding token context. -/
theorem claim_c4_unset_variable_passthrough (d : Document) (name : String)
    (pre post : List Token) (hunset : assocGet d.variables' name = none) :
    d.tokens_to_string (pre ++ Token.var name :: post) =
      d.tokens_to_string pre ++ ("\x7b" ++ name ++ "\x7d") ++ d.tokens_to_string post := by
  rw [tokens_to_string_append, tokens_to_string_cons, token_to_string_var, hunset]
  simp [String.append_assoc]

/-- CLAIM C4, witness at a concrete document. -/
theorem claim_c4_witness :
    (Document.mk Options.defaultOptions none [] [] []).tokens_to_string
        ([Token.text "x"] ++ Token.var "name" :: [Token.text "y"])
      = (Document.mk Options.defaultOptions none [] [] []).tokens_to_string [Token.text "x"]
        ++ ("\x7b" ++ "name" ++ "\x7d")
        ++ (Document.mk Options.defaultOptions none [] [] []).tokens_to_string [Token.text "y"] :=
  claim_c4_unset_variable_passthrough (Document.mk Options.defaultOptions none [] [] [])
    "name" [Token.text "x"] [Token.text "y"] rfl

/-- CLAIM C9: `clear_variables` empties both the variable table and the
pattern-instance table, while the token tree, the options and the
template path are left unchanged. -/
theorem claim_c9_clear_variables (d : Document) :
    (d.clear_variables).variables' = [] ∧
    (d.clear_variables).patterns = [] ∧
    (d.clear_variables).tokens = d.tokens ∧
    (d.clear_variables).options = d.options ∧
    (d.clear_variables).template_path = d.template_path :=
  ⟨rfl, rfl, rfl, rfl, rfl⟩

/-- `set_pattern` on a name with no registered instance starts a fresh
singleton instance list. -/
theorem set_pattern_none (d : Document) (nm : String) (pd : Document)
    (h : assocGet d.patterns nm = none) :
    d.set_pattern (Pattern.mk nm pd)
      = Document.mk d.options d.template_path d.tokens d.variables'
          (assocInsert d.patterns nm [pd.compile]) := by
  simp [Document.set_pattern, h]

/-- `set_pattern` on a name with registered instances appends the newly
compiled instance. -/
theorem set_pattern_some (d : Document) (nm : String) (pd : Document) (cs : List String)
    (h : assocGet d.patterns nm = some cs) :
    d.set_pattern (Pattern.mk nm pd)
      = Document.mk d.options d.template_path d.tokens d.variables'
          (assocInsert d.patterns nm (cs ++ [pd.compile])) := by
  simp [Document.set_pattern, h]

/-- CLAIM C5: extracting a pattern `p`, rendering the extracted copy
under two variable bindings and registering both instances back under
`p` makes the parent render the `Pattern(p)` slot as the concatenation
of the two rendered strings in registration order; with no registered
instances the slot renders as the empty string. -/
theorem claim_c5_pattern_round_trip (doc : Document) (p : String) (pat : Pattern)
    (body : List Token) (k1 v1 k2 v2 : String)
    (hget : doc.get_pattern p = some pat)
    (hempty : assocGet doc.patterns p = none) :
    doc.tokens_to_string [Token.pattern p body] = "" ∧
    ((doc.set_pattern (Pattern.mk p (pat.document.set k1 v1))).set_pattern
        (Pattern.mk p (pat.document.set k2 v2))).tokens_to_string [Token.pattern p body]
      = (pat.document.set k1 v1).compile ++ (pat.document.set k2 v2).compile := by
  constructor
  · simp [tokens_to_string_cons, token_to_string_pattern, hempty]
  · rw [set_pattern_none doc p (pat.document.set k1 v1) hempty]
    rw [set_pattern_some _ p (pat.document.set k2 v2) [(pat.document.set k1 v1).compile]
      (assocGet_insert_self doc.patterns p [(pat.document.set k1 v1).compile])]
    simp only [tokens_to_string_cons, tokens_to_string_nil, token_to_string_pattern,
      assocGet_insert_self, string_append_empty]
    exact string_join_pair _ _

/-- CLAIM C5, witness at a concrete document with one pattern. -/
theorem claim_c5_witness :
    (Document.mk Options.defaultOptions none [Token.pattern "p" [Token.var "x"]] [] []
        ).get_pattern "p"
      = some (Pattern.mk "p" (Document.mk Options.defaultOptions none [Token.var "x"] [] [])) ∧
    (Document.mk Options.defaultOptions none [Token.pattern "p" [Token.var "x"]] [] []
        ).tokens_to_string [Token.pattern "p" [Token.var "x"]] = "" :=
  ⟨rfl,
   (claim_c5_pattern_round_trip
      (Document.mk Options.defaultOptions none [Token.pattern "p" [Token.var "x"]] [] [])
      "p" (Pattern.mk "p" (Document.mk Options.defaultOptions none [Token.var "x"] [] []))
      [Token.var "x"] "x" "1" "x" "2" rfl rfl).1⟩

/-- CLAIM C6: a lexed token sequence in which some composite opener is
never followed by a matching `End` (depth-counting reading, captured by
`has_unclosed`) makes the structuring pass fail with the
unclosed-command error; no partially structured tree is returned. -/
theorem claim_c6_unclosed_command (toks : List Token) (h : has_unclosed 0 toks = true) :
    structure_tokens toks = Except.error ParseError.unclosedCommand := by
  suffices H : ∀ (n : Nat) (ts : List Token), ts.length ≤ n → has_unclosed 0 ts = true →
      structure_tokens ts = Except.error ParseError.unclosedCommand by
    exact H toks.length toks (Nat.le_refl _) h
  intro n
  induction n with
  | zero =>
    intro ts hlen hu
    rw [List.length_eq_zero.mp (Nat.le_zero.mp hlen)] at hu
    rw [hu_nil] at hu
    simp at hu
  | succ n ihn =>
    intro ts hlen hu
    cases ts with
    | nil => rw [hu_nil] at hu; simp at hu
    | cons tok rest =>
      simp only [List.length_cons, Nat.add_le_add_iff_right] at hlen
      by_cases hc : tok.is_command
      · rw [hu_cmd 0 tok rest hc] at hu
        cases h1 : dcs_plain tok rest with
        | error e =>
          have he := dcs_plain_error_unclosed rest.length rest (Nat.le_refl _) tok e h1
          subst he
          exact st_cmd_error tok rest hc h1
        | ok pr =>
          obtain ⟨t, rest1⟩ := pr
          have htrans := dcs_plain_has_unclosed rest.length rest (Nat.le_refl _) tok t rest1 h1 0
          rw [htrans] at hu
          have hrec := ihn rest1 (Nat.le_trans (dcs_plain_length _ _ _ _ h1) hlen) hu
          exact st_cmd_ok_error tok rest t rest1 hc h1 hrec
      · have hcf : tok.is_command = false := by simpa using hc
        have hu1 : has_unclosed 0 rest = true := by
          by_cases hend : tok = Token.end_
          · subst hend
            rwa [hu_end_zero] at hu
          · rwa [hu_plain 0 tok rest hcf hend] at hu
        rw [st_plain tok rest hcf, ihn rest hlen hu1]

/-- CLAIM C6, witness: an `if-set` opener with no following `End`. -/
theorem claim_c6_witness :
    has_unclosed 0 [Token.ifSet "v" [] none] = true ∧
    structure_tokens [Token.ifSet "v" [] none] = Except.error ParseError.unclosedCommand :=
  ⟨rfl, claim_c6_unclosed_command [Token.ifSet "v" [] none] rfl⟩

/-- CLAIM C7 (amended): for every NON-EMPTY input containing no opening
brace and not ending in a backslash, lexing succeeds and yields exactly
one `Text` token whose content is the input (the empty input yields no
token at all and a trailing lone backslash is dropped, hence the two
extra hypotheses, see `claim_c7_counterexample`). -/
theorem claim_c7_amended_pure_text (cs : List Char) (fuel : Nat)
    (fs : String → Option String) (opts : Options) (tp : Option String)
    (vars : List (String × String)) (pats : List (String × List String))
    (hne : cs ≠ []) (hnb : '\x7b' ∉ cs) (hlast : cs.getLast? ≠ some '\\') :
    first_pass fuel fs (Document.mk opts tp [] vars pats) cs ""
      = Except.ok (Document.mk opts tp [Token.text (String.mk cs)] vars pats) := by
  rw [lex_pure_text cs.length cs (Nat.le_refl _) hnb hlast fuel fs _ ""]
  rw [string_empty_append (String.mk cs)]
  cases cs with
  | nil => exact absurd rfl hne
  | cons c l => simp [flush_text, string_mk_cons_ne_empty c l, Document.push_token]

/-- CLAIM C7, witness at the concrete input `ab`. -/
theorem claim_c7_witness :
    ("ab".data ≠ [] ∧ '\x7b' ∉ "ab".data ∧ "ab".data.getLast? ≠ some '\\') ∧
    first_pass 0 (fun _ => none) (Document.mk Options.defaultOptions none [] [] []) "ab".data ""
      = Except.ok (Document.mk Options.defaultOptions none
          [Token.text (String.mk "ab".data)] [] []) :=
  ⟨⟨by decide, by decide, by decide⟩,
   claim_c7_amended_pure_text "ab".data 0 (fun _ => none) Options.defaultOptions none [] []
     (by decide) (by decide) (by decide)⟩

/-- CLAIM C7, counterexample: the empty input contains no `{` but lexes
to NO token at all (not to one `Text` node), and the input `a\` contains
no `{` but lexes to a single `Text` node `a` whose content differs from
the input (the trailing backslash is dropped). -/
theorem claim_c7_counterexample :
    ('\x7b' ∉ "".data ∧
      first_pass 0 (fun _ => none) (Document.mk Options.defaultOptions none [] [] []) "".data ""
        = Except.ok (Document.mk Options.defaultOptions none [] [] []) ∧
      ∀ s : String, (Document.mk Options.defaultOptions none [] [] []).tokens ≠ [Token.text s]) ∧
    ('\x7b' ∉ "a\\".data ∧
      first_pass 0 (fun _ => none) (Document.mk Options.defaultOptions none [] [] [])
          "a\\".data ""
        = Except.ok (Document.mk Options.defaultOptions none [Token.text "a"] [] []) ∧
      ("a" : String) ≠ "a\\") := by
  refine ⟨⟨by decide, ?_, ?_⟩, ⟨by decide, ?_, by decide⟩⟩
  · exact run_agrees 5 (Call.fp 0 (fun _ => none)
      (Document.mk Options.defaultOptions none [] [] []) "".data "") _ rfl
  · intro s hs
    simp at hs
  · exact run_agrees 10 (Call.fp 0 (fun _ => none)
      (Document.mk Options.defaultOptions none [] [] []) "a\\".data "") _ rfl

/-- CLAIM C8: `get_pattern` finds a pattern exactly when a `Pattern`
token with that name occurs among the TOP-LEVEL tokens (so a pattern
nested inside a conditional or another pattern body is not found), and
when several top-level patterns share the name the first in document
order is returned, carrying a copy of the current variable table and an
empty pattern-instance table. -/
theorem claim_c8_get_pattern (d : Document) (k : String) :
    ((d.get_pattern k).isSome ↔ ∃ ts, Token.pattern k ts ∈ d.tokens) ∧
    (∀ (pre body post : List Token),
      d.tokens = pre ++ Token.pattern k body :: post →
      (∀ ts, Token.pattern k ts ∉ pre) →
      d.get_pattern k
        = some (Pattern.mk k
            (Document.mk d.options d.template_path body d.variables' []))) := by
  constructor
  · rw [Document.get_pattern, List.findSome?_isSome_iff]
    constructor
    · rintro ⟨x, hmem, hsome⟩
      cases x
      case pattern n ts =>
        by_cases hnk : n = k
        · subst hnk
          exact ⟨ts, hmem⟩
        · simp [hnk] at hsome
      all_goals simp at hsome
    · rintro ⟨ts, hmem⟩
      exact ⟨Token.pattern k ts, hmem, by simp⟩
  · intro pre body post htoks hpre
    rw [Document.get_pattern, htoks, List.findSome?_append]
    have hpre_none :
        (pre.findSome? fun tok =>
          match tok with
          | Token.pattern pattern_name tokens =>
            if pattern_name = k then
              some (Pattern.mk k
                (Document.mk d.options d.template_path tokens d.variables' []))
            else none
          | _ => none) = none := by
      rw [List.findSome?_eq_none_iff]
      intro x hx
      cases x
      case pattern n ts =>
        by_cases hnk : n = k
        · subst hnk
          exact absurd hx (hpre ts)
        · simp [hnk]
      all_goals rfl
    rw [hpre_none, List.findSome?_cons_of_isSome _ (by simp)]
    simp

/-- CLAIM C8, witness: the first of two top-level patterns named `p` is
returned, with the variable table copied and the instance table empty. -/
theorem claim_c8_witness :
    (Document.mk Options.defaultOptions none
        [Token.text "t", Token.pattern "p" [Token.text "b"], Token.pattern "p" [Token.text "c"]]
        [("v", "1")] []).get_pattern "p"
      = some (Pattern.mk "p"
          (Document.mk Options.defaultOptions none [Token.text "b"] [("v", "1")] [])) :=
  (claim_c8_get_pattern
      (Document.mk Options.defaultOptions none
        [Token.text "t", Token.pattern "p" [Token.text "b"], Token.pattern "p" [Token.text "c"]]
        [("v", "1")] []) "p").2
    [Token.text "t"] [Token.text "b"] [Token.pattern "p" [Token.text "c"]] rfl
    (fun ts hmem => by simp at hmem)

/-- CLAIM C10 (amended): for every text containing no opening brace and
not ending in a backslash, appending a single trailing backslash does
not change the lexed token sequence — the final backslash is dropped.
(The no-brace hypothesis is forced: a trailing unterminated placeholder
swallows the backslash into recovered text, see
`claim_c10_counterexample`.) -/
theorem claim_c10_amended_trailing_backslash (cs : List Char) (fuel : Nat)
    (fs : String → Option String) (d : Document)
    (hnb : '\x7b' ∉ cs) (hlast : cs.getLast? ≠ some '\\') :
    first_pass fuel fs d (cs ++ ['\\']) "" = first_pass fuel fs d cs "" := by
  rw [lex_pure_text_trailing cs.length cs (Nat.le_refl _) hnb hlast fuel fs d ""]
  rw [lex_pure_text cs.length cs (Nat.le_refl _) hnb hlast fuel fs d ""]

/-- CLAIM C10, witness at the concrete input `ab`. -/
theorem claim_c10_witness :
    ('\x7b' ∉ "ab".data ∧ "ab".data.getLast? ≠ some '\\') ∧
    first_pass 0 (fun _ => none) (Document.mk Options.defaultOptions none [] [] [])
        ("ab".data ++ ['\\']) ""
      = first_pass 0 (fun _ => none) (Document.mk Options.defaultOptions none [] [] [])
          "ab".data "" :=
  ⟨⟨by decide, by decide⟩,
   claim_c10_amended_trailing_backslash "ab".data 0 (fun _ => none)
     (Document.mk Options.defaultOptions none [] [] []) (by decide) (by decide)⟩

/-- CLAIM C10, counterexample: the text `{` does not end in a
backslash-escape, yet lexing `{` followed by a trailing backslash yields
the single `Text` token `{\` — the backslash IS emitted inside a `Text`
token and the token sequence differs from that of `{` alone, because the
trailing backslash is swallowed by the recovery of the unterminated
placeholder. -/
theorem claim_c10_counterexample :
    ('\\' ∉ "\x7b".data) ∧
    first_pass 0 (fun _ => none) (Document.mk Options.defaultOptions none [] [] [])
        ("\x7b".data ++ ['\\']) ""
      = Except.ok (Document.mk Options.defaultOptions none [Token.text "\x7b\\"] [] []) ∧
    first_pass 0 (fun _ => none) (Document.mk Options.defaultOptions none [] [] [])
        "\x7b".data ""
      = Except.ok (Document.mk Options.defaultOptions none [Token.text "\x7b"] [] []) ∧
    ("\x7b\\" : String) ≠ "\x7b" := by
  refine ⟨by decide, ?_, ?_, by decide⟩
  · exact run_agrees 10 (Call.fp 0 (fun _ => none)
      (Document.mk Options.defaultOptions none [] [] []) ("\x7b".data ++ ['\\']) "") _ rfl
  · exact run_agrees 10 (Call.fp 0 (fun _ => none)
      (Document.mk Options.defaultOptions none [] [] []) "\x7b".data "") _ rfl

end Bempline